import Mathlib

/-!
Verification development for the FC Barcelona Reminder Bot (`bot.py`).

The Python source is shallowly embedded: pure fragments become Lean
functions, library calls that can fail (HTTP, ISO-timestamp parsing,
Telegram sends) become explicit parameters returning `Except`/`Option`,
and the MongoDB chat collection and the APScheduler job store become
explicit list-valued state threaded through the functions.  Timestamps
are modelled as integers (minutes); the `astimezone` conversion is a
fixed offset parameter and `datetime.isoformat` is modelled by
`toString`, both injective on the instants involved, which is the only
property the code relies on.
-/

namespace FCBot

/-- A raw match record as it appears in the feed JSON (`data["matches"]`):
an external identity, the `utcDate` string, the two team descriptors. -/
structure RawMatch where
  matchId : Nat
  utcDate : String
  homeId : Nat
  homeName : String
  awayId : Nat
  awayName : String
  deriving DecidableEq, Repr

/-- An HTTP response from the fixture feed, as consumed by
`fetch_game_schedule` (`response.status_code`, parsed `matches`). -/
structure HttpResponse where
  status : Nat
  matchList : List RawMatch
  deriving DecidableEq, Repr

/-- A normalized match: `bot.py` mutates each match dict, adding a
`localDate` (the UTC instant converted to Israel time). -/
structure NormMatch where
  matchId : Nat
  homeId : Nat
  homeName : String
  awayId : Nat
  awayName : String
  localDate : Int
  deriving DecidableEq, Repr

/-- Character-level model of `str.replace("Z", "+00:00")` (Python's
`replace` substitutes every occurrence of the pattern). -/
def replaceZchars : List Char → List Char
  | [] => []
  | c :: cs =>
    if c = 'Z' then '+' :: '0' :: '0' :: ':' :: '0' :: '0' :: replaceZchars cs
    else c :: replaceZchars cs

/-- Models `match['utcDate'].replace("Z", "+00:00")` (bot.py line 122). -/
def replaceZ (s : String) : String :=
  String.mk (replaceZchars s.data)

/-- Embeds `fetch_game_schedule` (bot.py lines 111-127).  `fromiso`
models `datetime.datetime.fromisoformat` (returns `none` where Python
raises `ValueError`); `tzOffset` models `astimezone(israel_tz)`.
On a non-200 status the code logs and returns `[]`; a timestamp that
fails to parse raises, which the embedding returns as `Except.error`. -/
def fetch_game_schedule (fromiso : String → Option Int) (tzOffset : Int)
    (resp : HttpResponse) : Except String (List NormMatch) :=
  if resp.status = 200 then
    convert resp.matchList
  else
    Except.ok []
where
  convert : List RawMatch → Except String (List NormMatch)
    | [] => Except.ok []
    | m :: ms =>
      match fromiso (replaceZ m.utcDate) with
      | none => Except.error ("ValueError: Invalid isoformat string: " ++ m.utcDate)
      | some t =>
        match convert ms with
        | Except.error e => Except.error e
        | Except.ok rest =>
          Except.ok ({ matchId := m.matchId, homeId := m.homeId,
                       homeName := m.homeName, awayId := m.awayId,
                       awayName := m.awayName, localDate := t + tzOffset } :: rest)

/-- Embeds `get_opponent` (bot.py lines 101-109): FC Barcelona's team id
is 81; the opponent is the other participant. -/
def get_opponent (m : NormMatch) : String :=
  if m.homeId = 81 then m.awayName else m.homeName

/-! ## Recipient registry (MongoDB `chats_collection`) -/

/-- Models `chats_collection.find_one({"chat_id": c})`: the collection is
a list of chat-id documents in insertion order. -/
def find_one (reg : List Int) (c : Int) : Option Int :=
  reg.find? (fun x => x == c)

/-- Embeds `register_chat` (bot.py lines 193-201): insert only when
`find_one` returns no document. -/
def register_chat (reg : List Int) (c : Int) : List Int :=
  match find_one reg c with
  | none => reg ++ [c]
  | some _ => reg

/-- Embeds `remove_chat` (bot.py lines 203-211): `delete_one` (which
removes the first matching document) only when a document exists. -/
def remove_chat (reg : List Int) (c : Int) : List Int :=
  match find_one reg c with
  | some _ => reg.erase c
  | none => reg

/-! ## Notification dispatch (`send_reminder`) -/

/-- The reminder text (bot.py lines 145-148); `strftime` is modelled by
`toString` on the instant. -/
def reminder_message (gameTime : Int) (hours : Nat) (opponent homeAway : String) : String :=
  "Reminder: FC Barcelona " ++ homeAway ++ " match against " ++ opponent ++
    " at " ++ toString gameTime ++ " in " ++ toString hours ++ " hours!"

/-- The delivery loop of `send_reminder` (bot.py lines 149-154): one
independent `bot.send_message` attempt per registered chat; an exception
from one send is caught (and logged) and the loop continues.  Returns
the chats delivered to and the chats whose failure was logged. -/
def deliver (send : Int → Except String Unit) : List Int → List Int × List Int
  | [] => ([], [])
  | c :: cs =>
    let r := deliver send cs
    match send c with
    | Except.ok _ => (c :: r.1, r.2)
    | Except.error _ => (r.1, c :: r.2)

/-- Result of one firing of `send_reminder`: the recipients reached, the
recipients whose delivery failure was caught and logged, and the single
message formatted for this firing. -/
structure DispatchResult where
  delivered : List Int
  failed : List Int
  message : String
  deriving DecidableEq, Repr

/-- Embeds `send_reminder` (bot.py lines 141-155).  `reg` is the chat
collection as read by `chats_collection.find()` at the moment the job
fires; `send` models `bot.send_message`. -/
def send_reminder (send : Int → Except String Unit) (reg : List Int)
    (gameTime : Int) (hours : Nat) (opponent homeAway : String) : DispatchResult :=
  let d := deliver send reg
  { delivered := d.1, failed := d.2,
    message := reminder_message gameTime hours opponent homeAway }

/-! ## Reminder planning (`schedule_reminders`) and the job store -/

/-- The configured lead times, in the order the code iterates them
(`for hours in [7, 5, 2]`). -/
def leadHours : List Nat := [7, 5, 2]

/-- The job identity string `f"{game_time.isoformat()}_{hours}"`
(bot.py line 173); `isoformat` is injective on same-timezone aware
datetimes and is modelled by `toString` on the instant. -/
def jobId (gameTime : Int) (hours : Nat) : String :=
  toString gameTime ++ "_" ++ toString hours

/-- A scheduled reminder job as held by the APScheduler job store: the
id, the `run_date` trigger, and the `args` the code closes over
(`[bot, game_time, hours, opponent, home_away]`; the bot handle is a
process-wide constant and is not part of the state). Note the args
contain no recipient data. -/
structure Job where
  id : String
  runDate : Int
  gameTime : Int
  hours : Nat
  opponent : String
  homeAway : String
  deriving DecidableEq, Repr

/-- The job built for one match and one lead time by the body of the
inner loop of `schedule_reminders` (bot.py lines 170-180). -/
def mkJob (m : NormMatch) (h : Nat) : Job :=
  { id := jobId m.localDate h,
    runDate := m.localDate - (h : Int) * 60,
    gameTime := m.localDate,
    hours := h,
    opponent := get_opponent m,
    homeAway := if m.homeId = 81 then "Home" else "Away" }

/-- Models `scheduler.add_job(..., id=job_id)`: APScheduler raises
`ConflictingIdError` when a job with the same id is already stored
(`replace_existing` defaults to false); otherwise the job is appended. -/
def add_job (store : List Job) (j : Job) : Except String (List Job) :=
  if store.any (fun k => k.id == j.id) then
    Except.error ("ConflictingIdError: " ++ j.id)
  else
    Except.ok (store ++ [j])

/-- The inner loop of `schedule_reminders` over `[7, 5, 2]` for one
future match: add a job whenever `reminder_time > now`; an exception
from `add_job` propagates, aborting the rest of the loop.  Returns the
job store and the propagated exception, if any. -/
def addJobsForMatch (now : Int) (m : NormMatch) :
    List Nat → List Job → List Job × Option String
  | [], store => (store, none)
  | h :: hs, store =>
    if m.localDate - (h : Int) * 60 > now then
      match add_job store (mkJob m h) with
      | Except.error e => (store, some e)
      | Except.ok store2 => addJobsForMatch now m hs store2
    else
      addJobsForMatch now m hs store

/-- The outer loop of `schedule_reminders` (bot.py lines 164-181) over
the fetched matches: only matches with `game_time > now` are
considered; an exception propagates, aborting the remaining matches. -/
def schedule_go (now : Int) : List NormMatch → List Job → List Job × Option String
  | [], store => (store, none)
  | m :: ms, store =>
    if m.localDate > now then
      match addJobsForMatch now m leadHours store with
      | (store2, none) => schedule_go now ms store2
      | (store2, some e) => (store2, some e)
    else
      schedule_go now ms store

/-- Embeds `schedule_reminders` (bot.py lines 157-181) applied to an
already-fetched match list: schedules 7/5/2-hour reminders for each
future match into `store`, returning the new store and the exception
that escaped the loops, if any. -/
def schedule_reminders (now : Int) (ms : List NormMatch) (store : List Job) :
    List Job × Option String :=
  schedule_go now ms store

set_option linter.unusedVariables false in
/-- Embeds `update_schedule` (bot.py lines 183-191): it first runs
`scheduler.remove_all_jobs()` — discarding every job in `store` — and
then `schedule_reminders`, whose first action is the fetch.  A fetch
exception escapes after the store was already cleared; a failed (non-200)
fetch yields `[]` and therefore re-adds nothing. -/
def update_schedule (now : Int) (fromiso : String → Option Int) (tzOffset : Int)
    (resp : HttpResponse) (store : List Job) : List Job × Option String :=
  match fetch_game_schedule fromiso tzOffset resp with
  | Except.error e => ([], some e)
  | Except.ok ms => schedule_reminders now ms []

/-- Firing a stored job executes `send_reminder` with the job's stored
`args` and the chat collection *as it is at firing time* (the registry
is read inside `send_reminder`, not captured at scheduling time). -/
def fire_job (send : Int → Except String Unit) (regAtFire : List Int) (j : Job) :
    DispatchResult :=
  send_reminder send regAtFire j.gameTime j.hours j.opponent j.homeAway

/-- A registry mutation performed between scheduling and firing: a
`/start` command (`register_chat`) or a `/remove` command
(`remove_chat`). -/
inductive RegOp where
  | add (c : Int)
  | del (c : Int)
  deriving DecidableEq, Repr

/-- Applies a sequence of `/start` and `/remove` commands to the chat
collection. -/
def applyOps : List RegOp → List Int → List Int
  | [], reg => reg
  | RegOp.add c :: rest, reg => applyOps rest (register_chat reg c)
  | RegOp.del c :: rest, reg => applyOps rest (remove_chat reg c)

/-! ## Webhook health monitoring -/

/-- The expected webhook target `f"{webhook_url}/{TELEGRAM_TOKEN}"`
(bot.py line 67); `os.environ.get` yields `none` when unset, which the
f-string renders as the text `None`. -/
def expected_webhook_url (webhookUrl : Option String) (token : String) : String :=
  (match webhookUrl with
   | some u => u
   | none => "None") ++ "/" ++ token

/-- Embeds `check_webhook_health` (bot.py lines 59-74).  `query` models
`bot.get_webhook_info()` returning the currently registered url, or an
exception; the `try` block catches the exception, logs, and returns
false. -/
def check_webhook_health (query : Except String String)
    (webhookUrl : Option String) (token : String) : Bool :=
  match query with
  | Except.ok url => url == expected_webhook_url webhookUrl token
  | Except.error _ => false

/-- Embeds `restore_webhook` (bot.py lines 76-89).  `setWebhook` models
`bot.set_webhook`; an exception is caught and logged, and the function
falls through to `return False`; an unset `WEBHOOK_URL` also yields
false. -/
def restore_webhook (setWebhook : String → Except String Unit)
    (webhookUrl : Option String) (token : String) : Bool :=
  match webhookUrl with
  | some u =>
    match setWebhook (u ++ "/" ++ token) with
    | Except.ok _ => true
    | Except.error _ => false
  | none => false

/-- One iteration of the `webhook_monitor` loop body (bot.py lines
95-99): when running on Render and the health check fails, attempt a
restore.  Returns whether a restore was attempted and whether it
succeeded. -/
def webhook_monitor_tick (render : Bool) (query : Except String String)
    (setWebhook : String → Except String Unit)
    (webhookUrl : Option String) (token : String) : Bool × Bool :=
  if render && !check_webhook_health query webhookUrl token then
    (true, restore_webhook setWebhook webhookUrl token)
  else
    (false, false)

/-! ## Theorems -/

/-- A chat id is absent from the collection exactly when `find_one`
returns no document. -/
lemma find_one_eq_none {reg : List Int} {c : Int} :
    find_one reg c = none ↔ c ∉ reg := by
  simp only [find_one, List.find?_eq_none, beq_iff_eq]
  constructor
  · intro h hc
    exact h c hc rfl
  · intro h x hx hxc
    exact h (hxc ▸ hx)

/-- A `find_one` hit implies membership. -/
lemma mem_of_find_one_eq_some {reg : List Int} {c x : Int}
    (h : find_one reg c = some x) : c ∈ reg := by
  have hx := List.find?_some h
  have hmem := List.mem_of_find?_eq_some h
  simp only [beq_iff_eq] at hx
  exact hx ▸ hmem

/-- C8: registry operations are idempotent.  `register_chat` on a
present id and `remove_chat` on an absent id leave the collection
unchanged; after `register_chat` the id is listed; after `remove_chat`
(on a duplicate-free collection — the only collections reachable
through these two operations, which both preserve `Nodup`) the id is
not listed, and no error is raised (both operations are total). -/
theorem registry_idempotent (reg : List Int) (c : Int) :
    (c ∈ reg → register_chat reg c = reg) ∧
    (c ∉ reg → remove_chat reg c = reg) ∧
    c ∈ register_chat reg c ∧
    (reg.Nodup → c ∉ remove_chat reg c) ∧
    (reg.Nodup → (register_chat reg c).Nodup) ∧
    (reg.Nodup → (remove_chat reg c).Nodup) := by
  refine ⟨?_, ?_, ?_, ?_, ?_, ?_⟩
  · intro hc
    cases h : find_one reg c with
    | none => exact absurd (find_one_eq_none.mp h) (not_not.mpr hc)
    | some x => simp [register_chat, h]
  · intro hc
    cases h : find_one reg c with
    | none => simp [remove_chat, h]
    | some x => exact absurd (mem_of_find_one_eq_some h) hc
  · cases h : find_one reg c with
    | none => simp [register_chat, h]
    | some x => simpa [register_chat, h] using mem_of_find_one_eq_some h
  · intro hnd
    cases h : find_one reg c with
    | none => simpa [remove_chat, h] using find_one_eq_none.mp h
    | some x =>
      simp only [remove_chat, h]
      intro hmem
      exact absurd rfl (hnd.mem_erase_iff.mp hmem).1
  · intro hnd
    cases h : find_one reg c with
    | none =>
      have hc := find_one_eq_none.mp h
      simp only [register_chat, h]
      rw [List.nodup_append]
      exact ⟨hnd, List.nodup_singleton c, by
        intro a ha hb
        rw [List.mem_singleton] at hb
        exact hc (hb ▸ ha)⟩
    | some x => simpa [register_chat, h] using hnd
  · intro hnd
    cases h : find_one reg c with
    | none => simpa [remove_chat, h] using hnd
    | some x => simpa [remove_chat, h] using hnd.erase c

/-- Witness for `registry_idempotent` at a concrete registry. -/
theorem registry_idempotent_witness :
    ((5 : Int) ∈ ([5, 7] : List Int) → register_chat [5, 7] 5 = [5, 7]) ∧
    ((9 : Int) ∉ ([5, 7] : List Int) → remove_chat [5, 7] 9 = [5, 7]) ∧
    (([5, 7] : List Int).Nodup → (5 : Int) ∉ remove_chat [5, 7] 5) := by
  have h := registry_idempotent [5, 7] 5
  have h9 := registry_idempotent [5, 7] 9
  exact ⟨h.1, h9.2.1, h.2.2.2.1⟩

/-- C9: each health-monitor tick re-registers exactly when the check
fails; the check succeeds exactly when the platform reports the
expected registration target; a failing query makes the check return
`false` (the exception is caught and logged, not propagated), and a
failing re-registration makes `restore_webhook` return `false` (caught
and logged); both embedded functions are total, so no tick can
terminate the monitor loop. -/
theorem webhook_monitor_correct (render : Bool) (query : Except String String)
    (setWebhook : String → Except String Unit)
    (webhookUrl : Option String) (token : String) :
    (check_webhook_health query webhookUrl token = true ↔
      query = Except.ok (expected_webhook_url webhookUrl token)) ∧
    (∀ e : String, check_webhook_health (Except.error e) webhookUrl token = false) ∧
    ((∀ u, ∃ e, setWebhook u = Except.error e) →
      restore_webhook setWebhook webhookUrl token = false) ∧
    ((webhook_monitor_tick render query setWebhook webhookUrl token).1 = true ↔
      (render = true ∧ check_webhook_health query webhookUrl token = false)) := by
  refine ⟨?_, ?_, ?_, ?_⟩
  · cases query with
    | ok url => simp [check_webhook_health]
    | error e => simp [check_webhook_health]
  · intro e
    rfl
  · intro hall
    cases hw : webhookUrl with
    | none => rfl
    | some u =>
      obtain ⟨e, he⟩ := hall (u ++ "/" ++ token)
      simp [restore_webhook, he]
  · unfold webhook_monitor_tick
    cases hc : check_webhook_health query webhookUrl token <;>
      cases render <;> simp

/-- Witness for `webhook_monitor_correct`: a failing query and a failing
re-registration on the same tick are both absorbed, and the restore is
attempted. -/
theorem webhook_monitor_correct_witness :
    restore_webhook (fun _ => Except.error "boom") (some "https://h") "tok" = false ∧
    (webhook_monitor_tick true (Except.error "down")
      (fun _ => Except.error "boom") (some "https://h") "tok").1 = true := by
  have h := webhook_monitor_correct true (Except.error "down")
    (fun _ => Except.error "boom") (some "https://h") "tok"
  exact ⟨h.2.2.1 (fun u => ⟨"boom", rfl⟩), h.2.2.2.mpr ⟨rfl, h.2.1 "down"⟩⟩

/-- A concrete stand-in for `datetime.fromisoformat`: parses exactly one
well-formed timestamp string and rejects everything else. -/
def fromisoExample (s : String) : Option Int :=
  if s = "2025-02-22T19:00:00+00:00" then some 28993140 else none

/-- A 200 response whose single match carries an unparsable timestamp. -/
def badTimestampResp : HttpResponse :=
  { status := 200,
    matchList := [{ matchId := 497892, utcDate := "not-a-date", homeId := 81,
                    homeName := "FC Barcelona", awayId := 86,
                    awayName := "Real Madrid" }] }

/-- C7 counterexample: a response with a successful status but an
unparsable `utcDate` does not produce the empty sequence — the
`ValueError` raised by `fromisoformat` propagates out of
`fetch_game_schedule`, so an unparsable timestamp is not treated as an
unavailable fetch. -/
theorem unparsable_timestamp_cex :
    fetch_game_schedule fromisoExample 120 badTimestampResp =
      Except.error "ValueError: Invalid isoformat string: not-a-date" ∧
    ∀ ms : List NormMatch,
      fetch_game_schedule fromisoExample 120 badTimestampResp ≠ Except.ok ms := by
  have heq : fetch_game_schedule fromisoExample 120 badTimestampResp =
      Except.error "ValueError: Invalid isoformat string: not-a-date" := rfl
  refine ⟨heq, fun ms h => ?_⟩
  rw [heq] at h
  cases h

/-- The conversion loop of `fetch_game_schedule` propagates the parse
exception of any match in the list. -/
lemma convert_error_of_unparsable (fromiso : String → Option Int) (tz : Int)
    (rs : List RawMatch) (m : RawMatch) (hm : m ∈ rs)
    (hbad : fromiso (replaceZ m.utcDate) = none) :
    ∃ e, fetch_game_schedule.convert fromiso tz rs = Except.error e := by
  induction rs with
  | nil => cases hm
  | cons r rest ih =>
    cases hm with
    | head =>
      exact ⟨"ValueError: Invalid isoformat string: " ++ m.utcDate,
        by simp [fetch_game_schedule.convert, hbad]⟩
    | tail _ hmem =>
      cases hr : fromiso (replaceZ r.utcDate) with
      | none =>
        exact ⟨"ValueError: Invalid isoformat string: " ++ r.utcDate,
          by simp [fetch_game_schedule.convert, hr]⟩
      | some t =>
        obtain ⟨e, he⟩ := ih hmem
        exact ⟨e, by simp [fetch_game_schedule.convert, hr, he]⟩

/-- C7 amended: a non-success HTTP status is treated as an unavailable
fetch (empty sequence, no exception), but an unparsable timestamp in a
successful response raises an exception that propagates out of
`fetch_game_schedule` to its caller. -/
theorem fetch_failure_modes (fromiso : String → Option Int) (tz : Int)
    (resp : HttpResponse) :
    (resp.status ≠ 200 → fetch_game_schedule fromiso tz resp = Except.ok []) ∧
    (resp.status = 200 →
      ∀ m ∈ resp.matchList, fromiso (replaceZ m.utcDate) = none →
        ∃ e, fetch_game_schedule fromiso tz resp = Except.error e) := by
  constructor
  · intro h
    simp [fetch_game_schedule, h]
  · intro h200 m hm hbad
    obtain ⟨e, he⟩ := convert_error_of_unparsable fromiso tz resp.matchList m hm hbad
    exact ⟨e, by simp [fetch_game_schedule, h200, he]⟩

/-- Witness for `fetch_failure_modes`: a 500 response yields the empty
match list; a 200 response with a broken timestamp yields an error. -/
theorem fetch_failure_modes_witness :
    fetch_game_schedule fromisoExample 120 { status := 500, matchList := [] } =
      Except.ok [] ∧
    ∃ e, fetch_game_schedule fromisoExample 120 badTimestampResp =
      Except.error e := by
  constructor
  · exact (fetch_failure_modes fromisoExample 120
      { status := 500, matchList := [] }).1 (by decide)
  · exact (fetch_failure_modes fromisoExample 120 badTimestampResp).2 rfl
      { matchId := 497892, utcDate := "not-a-date", homeId := 81,
        homeName := "FC Barcelona", awayId := 86, awayName := "Real Madrid" }
      (by decide) rfl

/-- A previously installed reminder job, used to exhibit the state of
the scheduler before a failing resync cycle. -/
def prevJob : Job :=
  { id := "720_2", runDate := 600, gameTime := 720, hours := 2,
    opponent := "Real Madrid", homeAway := "Home" }

/-- C2 counterexample: running `update_schedule` while the fetch reports
failure (HTTP 500) does not leave the previously installed job set
unchanged — `remove_all_jobs` has already discarded it, and the failed
fetch re-adds nothing, so the cycle ends with an empty job store. -/
theorem fetch_failure_not_noop_cex :
    (update_schedule 0 fromisoExample 120 { status := 500, matchList := [] }
      [prevJob]).1 = [] ∧
    (update_schedule 0 fromisoExample 120 { status := 500, matchList := [] }
      [prevJob]).1 ≠ [prevJob] := by
  refine ⟨rfl, ?_⟩
  intro h
  cases h

/-- C2 amended: a resync cycle whose fetch fails is not a no-op — for
every prior scheduler state, `update_schedule` first removes all jobs
and the failed fetch installs nothing, leaving the job store empty (and
no exception escapes the cycle for a non-success status). -/
theorem fetch_failure_clears_jobs (now : Int) (fromiso : String → Option Int)
    (tz : Int) (resp : HttpResponse) (store : List Job)
    (h : resp.status ≠ 200) :
    update_schedule now fromiso tz resp store = ([], none) := by
  have hfetch : fetch_game_schedule fromiso tz resp = Except.ok [] := by
    simp [fetch_game_schedule, h]
  simp [update_schedule, hfetch, schedule_reminders, schedule_go]

/-- Witness for `fetch_failure_clears_jobs` at a concrete prior state. -/
theorem fetch_failure_clears_jobs_witness :
    update_schedule 0 fromisoExample 120 { status := 500, matchList := [] }
      [prevJob] = ([], none) :=
  fetch_failure_clears_jobs 0 fromisoExample 120
    { status := 500, matchList := [] } [prevJob] (by decide)

/-- The delivery loop attempts every registered chat exactly once: the
successes and the logged failures together are a permutation of the
registry read at firing time. -/
lemma deliver_perm (send : Int → Except String Unit) (reg : List Int) :
    ((deliver send reg).1 ++ (deliver send reg).2).Perm reg := by
  induction reg with
  | nil => simp [deliver]
  | cons c cs ih =>
    simp only [deliver]
    cases send c with
    | ok u => simpa using ih.cons c
    | error e => exact List.perm_middle.trans (ih.cons c)

/-- The delivery loop partitions the registry by the outcome of each
independent send. -/
lemma deliver_eq_filter (send : Int → Except String Unit) (reg : List Int) :
    (deliver send reg).1 = reg.filter (fun c => (send c).isOk) ∧
    (deliver send reg).2 = reg.filter (fun c => !(send c).isOk) := by
  induction reg with
  | nil => simp [deliver]
  | cons c cs ih =>
    simp only [deliver, List.filter]
    cases h : send c with
    | ok u => simp [Except.isOk, Except.toBool, h, ih.1, ih.2]
    | error e => simp [Except.isOk, Except.toBool, h, ih.1, ih.2]

/-- C5: dispatch isolates per-recipient failures.  If exactly one
registered chat `bad` fails (each send to `bad` raises, every other
send succeeds), `send_reminder` still attempts every recipient, the
caught failure is exactly the one for `bad`, and the other N−1
recipients are all delivered to; the function is total, so nothing
propagates to the scheduler. -/
theorem dispatch_isolates_failures (reg : List Int) (bad : Int) (j : Job)
    (send : Int → Except String Unit)
    (hcount : reg.count bad = 1)
    (hsend : ∀ c : Int, (send c).isOk = (c != bad)) :
    ((fire_job send reg j).delivered ++ (fire_job send reg j).failed).Perm reg ∧
    (fire_job send reg j).failed = [bad] ∧
    (fire_job send reg j).delivered.length + 1 = reg.length ∧
    ∀ c ∈ reg, c ≠ bad → c ∈ (fire_job send reg j).delivered := by
  have hdel : (fire_job send reg j).delivered = reg.filter (fun c => (send c).isOk) :=
    (deliver_eq_filter send reg).1
  have hfail : (fire_job send reg j).failed = reg.filter (fun c => !(send c).isOk) :=
    (deliver_eq_filter send reg).2
  have hperm : ((fire_job send reg j).delivered ++ (fire_job send reg j).failed).Perm reg :=
    deliver_perm send reg
  have hfailbad : (fire_job send reg j).failed = [bad] := by
    rw [hfail]
    have : (fun c : Int => !(send c).isOk) = (fun c : Int => c == bad) := by
      funext c
      rw [hsend c]
      cases hc : c == bad <;> simp [bne] <;> simp at hc <;> simp [hc]
    rw [this, List.filter_beq reg bad, hcount]
    rfl
  refine ⟨hperm, hfailbad, ?_, ?_⟩
  · have hlen := hperm.length_eq
    rw [List.length_append, hfailbad] at hlen
    simpa using hlen
  · intro c hc hne
    rw [hdel, List.mem_filter]
    exact ⟨hc, by rw [hsend c]; simpa using hne⟩

/-- Witness for `dispatch_isolates_failures`: three recipients, the
middle one blocked. -/
theorem dispatch_isolates_failures_witness :
    ((fire_job (fun c => if c = 2 then Except.error "blocked" else Except.ok ())
        [1, 2, 3] prevJob).delivered ++
      (fire_job (fun c => if c = 2 then Except.error "blocked" else Except.ok ())
        [1, 2, 3] prevJob).failed).Perm [1, 2, 3] ∧
    (fire_job (fun c => if c = 2 then Except.error "blocked" else Except.ok ())
      [1, 2, 3] prevJob).failed = [2] ∧
    (fire_job (fun c => if c = 2 then Except.error "blocked" else Except.ok ())
      [1, 2, 3] prevJob).delivered.length + 1 = ([1, 2, 3] : List Int).length := by
  have h := dispatch_isolates_failures [1, 2, 3] 2 prevJob
    (fun c => if c = 2 then Except.error "blocked" else Except.ok ())
    (by decide)
    (by
      intro c
      by_cases hc : c = 2 <;> simp [hc, Except.isOk, Except.toBool])
  exact ⟨h.1, h.2.1, h.2.2.1⟩

/-- C6: the dispatcher reads the recipient set at firing time.  The job
installed by the planner closes over no recipient data, and for every
schedule-time registry and every sequence of `/start` and `/remove`
commands executed between scheduling and firing, the firing attempts
delivery to exactly the membership of the registry at the moment it
fires: chats added after scheduling are attempted (and delivered to
when their send succeeds) and chats removed before firing are not. -/
theorem dispatch_reads_registry_at_fire_time (m : NormMatch) (h : Nat)
    (regAtSched : List Int) (ops : List RegOp)
    (send : Int → Except String Unit) :
    ((fire_job send (applyOps ops regAtSched) (mkJob m h)).delivered ++
      (fire_job send (applyOps ops regAtSched) (mkJob m h)).failed).Perm
      (applyOps ops regAtSched) ∧
    (∀ c : Int,
      (c ∈ (fire_job send (applyOps ops regAtSched) (mkJob m h)).delivered ∨
       c ∈ (fire_job send (applyOps ops regAtSched) (mkJob m h)).failed) ↔
      c ∈ applyOps ops regAtSched) ∧
    (∀ c : Int,
      c ∈ (fire_job send (applyOps ops regAtSched) (mkJob m h)).delivered ↔
      (c ∈ applyOps ops regAtSched ∧ (send c).isOk = true)) := by
  have hperm := deliver_perm send (applyOps ops regAtSched)
  refine ⟨hperm, ?_, ?_⟩
  · intro c
    rw [← List.mem_append]
    exact hperm.mem_iff
  · intro c
    show c ∈ (deliver send (applyOps ops regAtSched)).1 ↔ _
    rw [(deliver_eq_filter send (applyOps ops regAtSched)).1, List.mem_filter]

/-! ## Planner theorems -/

/-- String append cancels on the left. -/
lemma string_append_left_cancel {s a b : String} (h : s ++ a = s ++ b) : a = b := by
  have hd := congrArg String.data h
  rw [String.data_append, String.data_append] at hd
  have := List.append_cancel_left hd
  cases a
  cases b
  exact congrArg String.mk this

/-- Two job ids with the same instant and lead hours whose decimal
renderings differ are different strings. -/
lemma jobId_ne_of_toString_ne {t : Int} {h1 h2 : Nat}
    (h : toString h1 ≠ toString h2) : jobId t h1 ≠ jobId t h2 := by
  intro he
  exact h (string_append_left_cancel he)

/-- Successful `add_job` appends the job. -/
lemma add_job_ok {store : List Job} {j : Job} {st2 : List Job}
    (h : add_job store j = Except.ok st2) :
    st2 = store ++ [j] ∧ store.any (fun k => k.id == j.id) = false := by
  unfold add_job at h
  cases hc : store.any (fun k => k.id == j.id) with
  | false =>
    rw [hc] at h
    simp at h
    exact ⟨h.symm, rfl⟩
  | true =>
    rw [hc] at h
    simp at h

/-- The inner loop over the lead hours, when every job id it will
generate is fresh for the store and the ids it generates are pairwise
distinct, succeeds and appends exactly the jobs whose reminder instant
is still in the future. -/
lemma addJobsForMatch_ok (now : Int) (m : NormMatch) :
    ∀ (hs : List Nat) (store : List Job),
      (∀ h ∈ hs, ∀ k ∈ store, k.id ≠ jobId m.localDate h) →
      (hs.map (jobId m.localDate)).Nodup →
      addJobsForMatch now m hs store =
        (store ++ (hs.filter
          (fun (h : Nat) => decide (m.localDate - (h : Int) * 60 > now))).map (mkJob m),
         none)
  | [], store => by
    intro _ _
    simp [addJobsForMatch, List.filter]
  | h :: hs, store => by
    intro hfresh hnd
    rw [List.map_cons, List.nodup_cons] at hnd
    by_cases hc : m.localDate - (h : Int) * 60 > now
    · have hadd : add_job store (mkJob m h) = Except.ok (store ++ [mkJob m h]) := by
        unfold add_job
        have : store.any (fun k => k.id == (mkJob m h).id) = false := by
          rw [List.any_eq_false]
          intro k hk
          simp only [beq_iff_eq, mkJob]
          exact fun he => hfresh h (List.mem_cons_self h hs) k hk he
        simp [this]
      have hrec := addJobsForMatch_ok now m hs (store ++ [mkJob m h])
        (by
          intro h2 hh2 k hk
          rcases List.mem_append.mp hk with hk1 | hk1
          · exact hfresh h2 (List.mem_cons_of_mem h hh2) k hk1
          · rw [List.mem_singleton] at hk1
            subst hk1
            show jobId m.localDate h ≠ jobId m.localDate h2
            intro he
            exact hnd.1 (he ▸ List.mem_map_of_mem (jobId m.localDate) hh2))
        hnd.2
      simp only [addJobsForMatch, if_pos hc, hadd, hrec]
      rw [List.filter_cons_of_pos (by simpa using hc)]
      simp
    · have hrec := addJobsForMatch_ok now m hs store
        (fun h2 hh2 => hfresh h2 (List.mem_cons_of_mem h hh2)) hnd.2
      simp only [addJobsForMatch, if_neg hc, hrec]
      rw [List.filter_cons_of_neg (by simpa using hc)]

/-- The three concrete lead-hour ids for one instant are pairwise
distinct strings. -/
lemma leadHours_ids_nodup (t : Int) :
    ((leadHours).map (jobId t)).Nodup := by
  simp only [leadHours, List.map_cons, List.map_nil]
  refine List.nodup_cons.mpr ⟨?_, List.nodup_cons.mpr ⟨?_, List.nodup_singleton _⟩⟩
  · intro hmem
    rcases List.mem_cons.mp hmem with he | hmem
    · exact jobId_ne_of_toString_ne (by decide) he
    · rw [List.mem_singleton] at hmem
      exact jobId_ne_of_toString_ne (by decide) hmem
  · intro hmem
    rw [List.mem_singleton] at hmem
    exact jobId_ne_of_toString_ne (by decide) hmem

/-- Closed form of `schedule_reminders` on a single fetched match and an
empty store: no exception, and exactly the lead times whose reminder
instant is still in the future produce a job. -/
lemma schedule_single (now : Int) (m : NormMatch) :
    schedule_reminders now [m] [] =
      ((if m.localDate > now then
          (leadHours.filter
            (fun (h : Nat) => decide (m.localDate - (h : Int) * 60 > now))).map (mkJob m)
        else []),
       none) := by
  by_cases hgt : m.localDate > now
  · have h1 := addJobsForMatch_ok now m leadHours []
      (by intro h _ k hk; cases hk) (leadHours_ids_nodup m.localDate)
    simp only [schedule_reminders, schedule_go, if_pos hgt, h1, List.nil_append]
  · simp only [schedule_reminders, schedule_go, if_neg hgt]

/-- C4: the planner emits a job for lead time `L` exactly when the event
start is strictly after `now` and `start − L` is strictly after `now`;
an event seen 12h before its start yields exactly the three jobs firing
7h, 5h and 2h before the start, and the same event seen 3h before its
start yields exactly the 2h job. -/
theorem plan_lead_time_iff (m : NormMatch) (now : Int) (L : Nat)
    (hL : L ∈ leadHours) :
    ((∃ j ∈ (schedule_reminders now [m] []).1,
        j.gameTime = m.localDate ∧ j.hours = L) ↔
      (m.localDate > now ∧ m.localDate - (L : Int) * 60 > now)) ∧
    (schedule_reminders now [m] []).2 = none ∧
    (m.localDate = now + 720 →
      (schedule_reminders now [m] []).1 = [mkJob m 7, mkJob m 5, mkJob m 2] ∧
      (schedule_reminders now [m] []).1.map Job.runDate =
        [now + 300, now + 420, now + 600]) ∧
    (m.localDate = now + 180 →
      (schedule_reminders now [m] []).1 = [mkJob m 2] ∧
      (schedule_reminders now [m] []).1.map Job.runDate = [now + 60]) := by
  rw [schedule_single]
  refine ⟨?_, rfl, ?_, ?_⟩
  · by_cases hgt : m.localDate > now
    · rw [if_pos hgt]
      constructor
      · rintro ⟨j, hj, hgame, hhours⟩
        rw [List.mem_map] at hj
        obtain ⟨h0, hh0, rfl⟩ := hj
        rw [List.mem_filter, decide_eq_true_eq] at hh0
        have hL0 : h0 = L := hhours
        exact ⟨hgt, hL0 ▸ hh0.2⟩
      · rintro ⟨_, hfire⟩
        refine ⟨mkJob m L, ?_, rfl, rfl⟩
        rw [List.mem_map]
        exact ⟨L, List.mem_filter.mpr ⟨hL, decide_eq_true hfire⟩, rfl⟩
    · rw [if_neg hgt]
      simp [hgt]
  · intro hm
    have hf : leadHours.filter
        (fun (h : Nat) => decide (m.localDate - (h : Int) * 60 > now)) = [7, 5, 2] := by
      rw [show leadHours = [7, 5, 2] from rfl]
      rw [List.filter_cons_of_pos (by simp; omega),
        List.filter_cons_of_pos (by simp; omega),
        List.filter_cons_of_pos (by simp; omega),
        List.filter_nil]
    rw [if_pos (by omega), hf]
    refine ⟨rfl, ?_⟩
    simp only [List.map_cons, List.map_nil, mkJob, hm]
    norm_num
    omega
  · intro hm
    have hf : leadHours.filter
        (fun (h : Nat) => decide (m.localDate - (h : Int) * 60 > now)) = [2] := by
      rw [show leadHours = [7, 5, 2] from rfl]
      rw [List.filter_cons_of_neg (by simp; omega),
        List.filter_cons_of_neg (by simp; omega),
        List.filter_cons_of_pos (by simp; omega),
        List.filter_nil]
    rw [if_pos (by omega), hf]
    refine ⟨rfl, ?_⟩
    simp only [List.map_cons, List.map_nil, mkJob, hm]
    norm_num
    omega

/-- Witness for `plan_lead_time_iff` at a concrete event 12h away. -/
theorem plan_lead_time_iff_witness :
    (schedule_reminders 0
      [{ matchId := 1, homeId := 81, homeName := "FC Barcelona", awayId := 86,
         awayName := "Real Madrid", localDate := 720 }] []).1.map Job.runDate =
      [300, 420, 600] := by
  have h := plan_lead_time_iff
    { matchId := 1, homeId := 81, homeName := "FC Barcelona", awayId := 86,
      awayName := "Real Madrid", localDate := 720 } 0 7 (by decide)
  simpa using (h.2.2.1 (by decide)).2

/-- A future match that the feed reports twice. -/
def dupMatch : NormMatch :=
  { matchId := 497892, homeId := 81, homeName := "FC Barcelona", awayId := 86,
    awayName := "Real Madrid", localDate := 720 }

/-- C3 counterexample: on a feed containing the same event twice the
planner does not de-duplicate and complete — the second `add_job` for
the repeated `(start, 7h)` id raises `ConflictingIdError`, which
propagates out of `schedule_reminders`. -/
theorem planner_no_dedup_cex :
    (schedule_reminders 0 [dupMatch, dupMatch] []).2 =
      some ("ConflictingIdError: " ++ jobId 720 7) ∧
    (schedule_reminders 0 [dupMatch, dupMatch] []).2 ≠ none := by
  decide

/-- A successful `add_job` preserves distinctness of the stored ids. -/
lemma add_job_ok_nodup {store : List Job} {j : Job} {st2 : List Job}
    (hnd : (store.map Job.id).Nodup) (h : add_job store j = Except.ok st2) :
    (st2.map Job.id).Nodup := by
  obtain ⟨rfl, hany⟩ := add_job_ok h
  rw [List.map_append, List.nodup_append]
  refine ⟨hnd, List.nodup_singleton _, ?_⟩
  intro a ha hb
  rw [List.any_eq_false] at hany
  obtain ⟨k, hk, rfl⟩ := List.mem_map.mp ha
  have hne : k.id ≠ j.id := by simpa using hany k hk
  simp only [List.map_cons, List.map_nil, List.mem_singleton] at hb
  exact hne hb

/-- The inner loop preserves distinctness of the stored ids whether or
not it aborts. -/
lemma addJobsForMatch_nodup (now : Int) (m : NormMatch) :
    ∀ (hs : List Nat) (store : List Job), (store.map Job.id).Nodup →
      (((addJobsForMatch now m hs store).1).map Job.id).Nodup
  | [], store => by
    intro hnd
    simpa [addJobsForMatch] using hnd
  | h :: hs, store => by
    intro hnd
    by_cases hc : m.localDate - (h : Int) * 60 > now
    · cases hadd : add_job store (mkJob m h) with
      | error e =>
        simpa [addJobsForMatch, if_pos hc, hadd] using hnd
      | ok st2 =>
        have h2 := add_job_ok_nodup hnd hadd
        simpa [addJobsForMatch, if_pos hc, hadd] using
          addJobsForMatch_nodup now m hs st2 h2
    · simpa [addJobsForMatch, if_neg hc] using
        addJobsForMatch_nodup now m hs store hnd

/-- The outer loop preserves distinctness of the stored ids whether or
not it aborts. -/
lemma schedule_go_nodup (now : Int) :
    ∀ (ms : List NormMatch) (store : List Job), (store.map Job.id).Nodup →
      (((schedule_go now ms store).1).map Job.id).Nodup
  | [], store => by
    intro hnd
    simpa [schedule_go] using hnd
  | m :: ms, store => by
    intro hnd
    by_cases hgt : m.localDate > now
    · rcases hres : addJobsForMatch now m leadHours store with ⟨st2, err⟩
      have h2 : (st2.map Job.id).Nodup := by
        have := addJobsForMatch_nodup now m leadHours store hnd
        rw [hres] at this
        exact this
      cases err with
      | none =>
        simpa [schedule_go, if_pos hgt, hres] using schedule_go_nodup now ms st2 h2
      | some e =>
        simpa [schedule_go, if_pos hgt, hres] using h2
    · simpa [schedule_go, if_neg hgt] using schedule_go_nodup now ms store hnd

/-- C3 amended: the store never holds two jobs with the same id — hence
at most one pending job per `(start, lead-time)` pair, and so per
`(event, lead-time)` pair — but this is enforced by `add_job` raising on
the conflicting id (aborting the rest of the cycle), not by the planner
de-duplicating the feed before emitting. -/
theorem job_ids_remain_unique (now : Int) (ms : List NormMatch)
    (store : List Job) (hnd : (store.map Job.id).Nodup) :
    (((schedule_reminders now ms store).1).map Job.id).Nodup :=
  schedule_go_nodup now ms store hnd

/-- Witness for `job_ids_remain_unique` on the duplicated feed. -/
theorem job_ids_remain_unique_witness :
    (((schedule_reminders 0 [dupMatch, dupMatch] []).1).map Job.id).Nodup :=
  job_ids_remain_unique 0 [dupMatch, dupMatch] [] (by decide)

/-- A second, distinct fixture that starts at the same instant as
`dupMatch` (FC Barcelona away). -/
def sameStartMatch : NormMatch :=
  { matchId := 498001, homeId := 90, homeName := "Girona", awayId := 81,
    awayName := "FC Barcelona", localDate := 720 }

/-- A later fixture appearing after the colliding pair in the feed. -/
def laterMatch : NormMatch :=
  { matchId := 498002, homeId := 81, homeName := "FC Barcelona", awayId := 78,
    awayName := "Club Atlético de Madrid", localDate := 2000 }

/-- C10: job identities derive from the start timestamp, not the event
id — two distinct future matches with the same start instant produce the
identical job id string for the same lead time, the second `add_job`
raises on that duplicate id, and the exception propagates out of
`schedule_reminders`, so the remaining jobs of the cycle (here the ones
for `laterMatch`) are never scheduled. -/
theorem duplicate_start_collision :
    jobId sameStartMatch.localDate 7 = jobId dupMatch.localDate 7 ∧
    sameStartMatch.matchId ≠ dupMatch.matchId ∧
    (schedule_reminders 0 [dupMatch, sameStartMatch, laterMatch] []).2 =
      some ("ConflictingIdError: " ++ jobId 720 7) ∧
    (schedule_reminders 0 [dupMatch, sameStartMatch, laterMatch] []).1 =
      [mkJob dupMatch 7, mkJob dupMatch 5, mkJob dupMatch 2] := by
  decide

/-! ## The resync/firing interleaving model

`update_schedule` runs as a scheduler job while the scheduler thread
keeps firing due jobs; the model below interleaves the store-mutating
atomic actions of APScheduler (firing a due date-trigger job removes it
from the store and executes it; `remove_all_jobs`; each `add_job`) with
the resync control flow of bot.py lines 183-191.  Pure computation
between store operations (reading the clock, filtering lead times) is
collapsed into the step that captures `now`, which happens inside
`schedule_reminders` after `remove_all_jobs` and the fetch. -/

/-- The `(event, lead-time)` identity of a job: the code keys events by
their start instant, so the pair is (start, lead hours). -/
def pairKey (j : Job) : Int × Nat := (j.gameTime, j.hours)

/-- Shape of every job the planner builds: its run date is its start
instant minus its lead time. -/
def wfJob (j : Job) : Prop := j.runDate = j.gameTime - (j.hours : Int) * 60

/-- The jobs the inner loop generates for one future match, in add
order. -/
def jobsFor (now : Int) (m : NormMatch) : List Job :=
  (leadHours.filter
    (fun (h : Nat) => decide (m.localDate - (h : Int) * 60 > now))).map (mkJob m)

/-- The complete new generation `schedule_reminders` will add for a
fetched match list, in add order. -/
def planned (now : Int) : List NormMatch → List Job
  | [] => []
  | m :: ms => (if m.localDate > now then jobsFor now m else []) ++ planned now ms

/-- When the inner loop completes without an exception it has appended
exactly its planned jobs. -/
lemma addJobsForMatch_none_eq (now : Int) (m : NormMatch) :
    ∀ (hs : List Nat) (store : List Job),
      (addJobsForMatch now m hs store).2 = none →
      (addJobsForMatch now m hs store).1 =
        store ++ (hs.filter
          (fun (h : Nat) => decide (m.localDate - (h : Int) * 60 > now))).map (mkJob m)
  | [], store => by
    intro _
    simp [addJobsForMatch, List.filter]
  | h :: hs, store => by
    intro hnone
    by_cases hc : m.localDate - (h : Int) * 60 > now
    · cases hadd : add_job store (mkJob m h) with
      | error e =>
        rw [show addJobsForMatch now m (h :: hs) store =
          (store, some e) from by simp [addJobsForMatch, if_pos hc, hadd]] at hnone
        cases hnone
      | ok st2 =>
        obtain ⟨rfl, -⟩ := add_job_ok hadd
        have heq : addJobsForMatch now m (h :: hs) store =
            addJobsForMatch now m hs (store ++ [mkJob m h]) := by
          simp [addJobsForMatch, if_pos hc, hadd]
        rw [heq] at hnone ⊢
        rw [addJobsForMatch_none_eq now m hs (store ++ [mkJob m h]) hnone]
        rw [List.filter_cons_of_pos (by simpa using hc)]
        simp
    · have heq : addJobsForMatch now m (h :: hs) store =
          addJobsForMatch now m hs store := by
        simp [addJobsForMatch, if_neg hc]
      rw [heq] at hnone ⊢
      rw [addJobsForMatch_none_eq now m hs store hnone]
      rw [List.filter_cons_of_neg (by simpa using hc)]

/-- When `schedule_reminders` completes without an exception it has
appended exactly the planned generation, in add order. -/
lemma schedule_go_none_eq (now : Int) :
    ∀ (ms : List NormMatch) (store : List Job),
      (schedule_go now ms store).2 = none →
      (schedule_go now ms store).1 = store ++ planned now ms
  | [], store => by
    intro _
    simp [schedule_go, planned]
  | m :: ms, store => by
    intro hnone
    by_cases hgt : m.localDate > now
    · rcases hres : addJobsForMatch now m leadHours store with ⟨st2, err⟩
      cases err with
      | some e =>
        rw [show schedule_go now (m :: ms) store = (st2, some e) from by
          simp [schedule_go, if_pos hgt, hres]] at hnone
        cases hnone
      | none =>
        have heq : schedule_go now (m :: ms) store = schedule_go now ms st2 := by
          simp [schedule_go, if_pos hgt, hres]
        rw [heq] at hnone ⊢
        rw [schedule_go_none_eq now ms st2 hnone]
        have h2 : st2 = store ++ jobsFor now m := by
          have := addJobsForMatch_none_eq now m leadHours store
          rw [hres] at this
          exact this rfl
        rw [h2, planned, if_pos hgt, List.append_assoc]
    · have heq : schedule_go now (m :: ms) store = schedule_go now ms store := by
        simp [schedule_go, if_neg hgt]
      rw [heq] at hnone ⊢
      rw [schedule_go_none_eq now ms store hnone, planned, if_neg hgt]
      simp

/-- Every job of one match's plan is well-formed, still in the future at
planning time, and carries the match's start instant. -/
lemma mem_jobsFor {now : Int} {m : NormMatch} {j : Job}
    (hj : j ∈ jobsFor now m) :
    wfJob j ∧ j.runDate > now ∧ j.gameTime = m.localDate ∧ j.hours ∈ leadHours := by
  obtain ⟨h, hh, rfl⟩ := List.mem_map.mp hj
  rw [List.mem_filter, decide_eq_true_eq] at hh
  exact ⟨rfl, hh.2, rfl, hh.1⟩

/-- Every planned job comes from some fetched match. -/
lemma mem_planned {now : Int} {j : Job} :
    ∀ {ms : List NormMatch}, j ∈ planned now ms → ∃ m ∈ ms, j ∈ jobsFor now m
  | [], h => by cases h
  | m :: ms, h => by
    rw [planned, List.mem_append] at h
    rcases h with h | h
    · by_cases hgt : m.localDate > now
      · rw [if_pos hgt] at h
        exact ⟨m, List.mem_cons_self m ms, h⟩
      · rw [if_neg hgt] at h
        cases h
    · obtain ⟨m2, hm2, hj2⟩ := mem_planned h
      exact ⟨m2, List.mem_cons_of_mem m hm2, hj2⟩

/-- Every planned job is well-formed and due strictly after planning
time. -/
lemma mem_planned_props {now : Int} {ms : List NormMatch} {j : Job}
    (h : j ∈ planned now ms) : wfJob j ∧ j.runDate > now := by
  obtain ⟨m, -, hj⟩ := mem_planned h
  exact ⟨(mem_jobsFor hj).1, (mem_jobsFor hj).2.1⟩

/-- When the fetched matches have pairwise distinct start instants, the
planned generation has pairwise distinct `(event, lead-time)` keys. -/
lemma planned_keys_nodup (now : Int) :
    ∀ (ms : List NormMatch), (ms.map NormMatch.localDate).Nodup →
      ((planned now ms).map pairKey).Nodup
  | [], _ => by simp [planned]
  | m :: ms, hnd => by
    rw [List.map_cons, List.nodup_cons] at hnd
    rw [planned, List.map_append, List.nodup_append]
    refine ⟨?_, planned_keys_nodup now ms hnd.2, ?_⟩
    · by_cases hgt : m.localDate > now
      · rw [if_pos hgt]
        rw [jobsFor, List.map_map]
        have : (pairKey ∘ mkJob m) = (fun h : Nat => (m.localDate, h)) := by
          funext h
          rfl
        rw [this]
        refine List.Nodup.map ?_ (List.Nodup.filter _ (by decide))
        intro a b hab
        exact congrArg Prod.snd hab
      · rw [if_neg hgt]
        exact List.nodup_nil
    · intro k hk1 hk2
      obtain ⟨j1, hj1, rfl⟩ := List.mem_map.mp hk1
      obtain ⟨j2, hj2, hkey⟩ := List.mem_map.mp hk2
      have hg1 : j1.gameTime = m.localDate := by
        by_cases hgt : m.localDate > now
        · rw [if_pos hgt] at hj1
          exact (mem_jobsFor hj1).2.2.1
        · rw [if_neg hgt] at hj1
          cases hj1
      obtain ⟨m2, hm2, hjf2⟩ := mem_planned hj2
      have hg2 : j2.gameTime = m2.localDate := (mem_jobsFor hjf2).2.2.1
      have : j1.gameTime = j2.gameTime := congrArg Prod.fst hkey.symm
      apply hnd.1
      rw [← hg1, this, hg2]
      exact List.mem_map_of_mem NormMatch.localDate hm2

/-- Progress of the resync control flow of `update_schedule`: not yet
started; `remove_all_jobs` done; installing the generation planned at
capture time `now0` with the given jobs still to add; installed; or
aborted by a propagated `add_job` exception. -/
inductive RPC where
  | idle
  | cleared
  | installing (now0 : Int) (pending : List Job)
  | installed (now0 : Int)
  | failed
  deriving DecidableEq, Repr

/-- The shared state: the wall clock, the APScheduler job store, the log
of fired jobs in firing order, and the resync progress. -/
structure SysState where
  now : Int
  store : List Job
  fired : List Job
  resync : RPC
  deriving DecidableEq, Repr

/-- The jobs the resync still has to add. -/
def pendingOf : RPC → List Job
  | RPC.installing _ p => p
  | _ => []

/-- One atomic step of the interleaved system, for a fixed fetched match
list: time advances; the scheduler thread fires a stored due job
(date-trigger jobs are removed from the store when submitted); or the
resync performs its next store operation (`remove_all_jobs`, capturing
`now` and planning, one `add_job`, or finishing). -/
inductive Step (ms : List NormMatch) : SysState → SysState → Prop where
  | tick (s : SysState) (d : Int) (hd : 0 ≤ d) :
      Step ms s { s with now := s.now + d }
  | fire (s : SysState) (j : Job) (hmem : j ∈ s.store) (hdue : j.runDate ≤ s.now) :
      Step ms s { s with store := s.store.erase j, fired := s.fired ++ [j] }
  | removeAll (s : SysState) (h : s.resync = RPC.idle) :
      Step ms s { s with store := [], resync := RPC.cleared }
  | plan (s : SysState) (h : s.resync = RPC.cleared) :
      Step ms s { s with resync := RPC.installing s.now (planned s.now ms) }
  | addOk (s : SysState) (n0 : Int) (j : Job) (rest : List Job) (st2 : List Job)
      (h : s.resync = RPC.installing n0 (j :: rest))
      (hadd : add_job s.store j = Except.ok st2) :
      Step ms s { s with store := st2, resync := RPC.installing n0 rest }
  | addFail (s : SysState) (n0 : Int) (j : Job) (rest : List Job) (e : String)
      (h : s.resync = RPC.installing n0 (j :: rest))
      (hadd : add_job s.store j = Except.error e) :
      Step ms s { s with resync := RPC.failed }
  | finish (s : SysState) (n0 : Int) (h : s.resync = RPC.installing n0 []) :
      Step ms s { s with resync := RPC.installed n0 }

/-- Finitely many interleaved steps from a fixed start state. -/
inductive Steps (ms : List NormMatch) (s : SysState) : SysState → Prop where
  | refl : Steps ms s s
  | tail {t u : SysState} (hst : Steps ms s t) (htu : Step ms t u) : Steps ms s u

/-- Per-phase constraints on the job store: an empty store right after
`remove_all_jobs`, and stored/pending jobs drawn from the generation
planned at capture time during and after installation. -/
def phaseOk (ms : List NormMatch) (store : List Job) : RPC → Prop
  | RPC.idle => True
  | RPC.cleared => store = []
  | RPC.installing n0 pending =>
    (∀ j ∈ store, j ∈ planned n0 ms) ∧ (∀ j ∈ pending, j ∈ planned n0 ms)
  | RPC.installed n0 => ∀ j ∈ store, j ∈ planned n0 ms
  | RPC.failed => True

/-- The interleaving invariant: every fired job is well-formed and was
due no later than the current clock; stored jobs are well-formed; the
`(event, lead-time)` keys of the fired log, the store and the
still-pending adds are jointly distinct; and the store satisfies the
per-phase constraints. -/
def Inv (ms : List NormMatch) (s : SysState) : Prop :=
  (∀ j ∈ s.fired, j.runDate ≤ s.now ∧ wfJob j) ∧
  (∀ j ∈ s.store, wfJob j) ∧
  ((s.fired ++ s.store ++ pendingOf s.resync).map pairKey).Nodup ∧
  phaseOk ms s.store s.resync

/-- The invariant holds in every start state with duplicate-free,
well-formed installed jobs and nothing fired yet. -/
lemma inv_init (ms : List NormMatch) (oldGen : List Job) (n0 : Int)
    (h1 : (oldGen.map pairKey).Nodup) (h2 : ∀ j ∈ oldGen, wfJob j) :
    Inv ms ⟨n0, oldGen, [], RPC.idle⟩ := by
  refine ⟨fun j hj => absurd hj (List.not_mem_nil j), h2, ?_, trivial⟩
  simpa [pendingOf] using h1

/-- Keys of the fired log stay distinct when extracted from the joint
distinctness. -/
lemma fired_keys_nodup {fired store pending : List Job}
    (hnd : ((fired ++ store ++ pending).map pairKey).Nodup) :
    (fired.map pairKey).Nodup := by
  rw [List.map_append, List.map_append] at hnd
  exact List.Nodup.sublist
    ((List.sublist_append_left _ _).trans (List.sublist_append_left _ _)) hnd

/-- Each atomic step preserves the interleaving invariant (for a feed
whose matches have pairwise distinct start instants). -/
lemma inv_step {ms : List NormMatch}
    (hms : (ms.map NormMatch.localDate).Nodup)
    {s t : SysState} (hinv : Inv ms s) (hst : Step ms s t) : Inv ms t := by
  obtain ⟨hfired, hstore, hnd, hphase⟩ := hinv
  cases hst with
  | tick d hd =>
    refine ⟨?_, hstore, hnd, hphase⟩
    intro j hj
    refine ⟨le_trans (hfired j hj).1 ?_, (hfired j hj).2⟩
    show s.now ≤ s.now + d
    omega
  | fire j hmem hdue =>
    have hwfj := hstore j hmem
    refine ⟨?_, ?_, ?_, ?_⟩
    · intro k hk
      rcases List.mem_append.mp hk with hk | hk
      · exact hfired k hk
      · rw [List.mem_singleton] at hk
        subst hk
        exact ⟨hdue, hwfj⟩
    · intro k hk
      exact hstore k (List.erase_subset j s.store hk)
    · have h1 : s.store.Perm (j :: s.store.erase j) := List.perm_cons_erase hmem
      have h2 : (s.fired ++ s.store ++ pendingOf s.resync).Perm
          ((s.fired ++ [j]) ++ s.store.erase j ++ pendingOf s.resync) := by
        refine ((h1.append_left s.fired).append_right _).trans ?_
        have he : s.fired ++ (j :: s.store.erase j) =
            (s.fired ++ [j]) ++ s.store.erase j := by
          simp
        rw [he]
      exact (List.Perm.nodup_iff (h2.map pairKey)).mp hnd
    · cases hr : s.resync with
      | idle => simp [phaseOk]
      | cleared =>
        rw [hr] at hphase
        simp only [phaseOk] at hphase
        rw [hphase] at hmem
        exact absurd hmem (List.not_mem_nil j)
      | installing n0 pending =>
        rw [hr] at hphase
        simp only [phaseOk] at hphase ⊢
        exact ⟨fun k hk => hphase.1 k (List.erase_subset j s.store hk), hphase.2⟩
      | installed n0 =>
        rw [hr] at hphase
        simp only [phaseOk] at hphase ⊢
        exact fun k hk => hphase k (List.erase_subset j s.store hk)
      | failed => simp [phaseOk]
  | removeAll h =>
    refine ⟨hfired, fun k hk => absurd hk (List.not_mem_nil k), ?_, ?_⟩
    · simpa [pendingOf] using fired_keys_nodup hnd
    · simp [phaseOk]
  | plan h =>
    have hsempty : s.store = [] := by
      rw [h] at hphase
      simpa [phaseOk] using hphase
    refine ⟨hfired, hstore, ?_, ?_⟩
    · rw [hsempty]
      simp only [pendingOf, List.append_nil, List.nil_append]
      rw [List.map_append, List.nodup_append]
      refine ⟨fired_keys_nodup hnd, planned_keys_nodup s.now ms hms, ?_⟩
      intro k hk1 hk2
      obtain ⟨j1, hj1, rfl⟩ := List.mem_map.mp hk1
      obtain ⟨j2, hj2, hkey⟩ := List.mem_map.mp hk2
      have h1 := hfired j1 hj1
      have h2 := mem_planned_props hj2
      have hgt : j1.gameTime = j2.gameTime := congrArg Prod.fst hkey.symm
      have hhr : j1.hours = j2.hours := congrArg Prod.snd hkey.symm
      have hrun : j1.runDate = j2.runDate := by
        rw [h1.2, h2.1, hgt, hhr]
      have hle := h1.1
      have hlt := h2.2
      omega
    · simp only [phaseOk]
      exact ⟨fun k hk => by rw [hsempty] at hk; exact absurd hk (List.not_mem_nil k),
        fun k hk => hk⟩
  | addOk n0 j rest st2 h hadd =>
    obtain ⟨hst2, -⟩ := add_job_ok hadd
    subst hst2
    rw [h] at hphase hnd
    simp only [phaseOk] at hphase
    simp only [pendingOf] at hnd
    have hjp : j ∈ planned n0 ms := hphase.2 j (List.mem_cons_self j rest)
    refine ⟨hfired, ?_, ?_, ?_⟩
    · intro k hk
      rcases List.mem_append.mp hk with hk | hk
      · exact hstore k hk
      · rw [List.mem_singleton] at hk
        subst hk
        exact (mem_planned_props hjp).1
    · simp only [pendingOf]
      have he : s.fired ++ (s.store ++ [j]) ++ rest =
          s.fired ++ s.store ++ (j :: rest) := by
        simp [List.append_assoc]
      rw [he]
      exact hnd
    · simp only [phaseOk]
      refine ⟨?_, fun k hk => hphase.2 k (List.mem_cons_of_mem j hk)⟩
      intro k hk
      rcases List.mem_append.mp hk with hk | hk
      · exact hphase.1 k hk
      · rw [List.mem_singleton] at hk
        subst hk
        exact hjp
  | addFail n0 j rest e h hadd =>
    refine ⟨hfired, hstore, ?_, by simp [phaseOk]⟩
    rw [h] at hnd
    simp only [pendingOf] at hnd ⊢
    simp only [List.append_nil]
    rw [List.map_append] at hnd
    exact List.Nodup.sublist (List.sublist_append_left _ _) hnd
  | finish n0 h =>
    rw [h] at hphase hnd
    simp only [phaseOk] at hphase
    refine ⟨hfired, hstore, ?_, ?_⟩
    · simpa [pendingOf] using hnd
    · simp only [phaseOk]
      exact hphase.1

/-- The invariant holds along every interleaving. -/
lemma inv_steps {ms : List NormMatch}
    (hms : (ms.map NormMatch.localDate).Nodup)
    {s s' : SysState} (hinv : Inv ms s) (h : Steps ms s s') : Inv ms s' := by
  induction h with
  | refl => exact hinv
  | tail hst htu ih => exact inv_step hms ih htu

/-- Once the new generation is installed it stays installed, the
invariant is maintained, and everything fired from then on belongs to
the installed generation. -/
lemma steps_after_installed {ms : List NormMatch}
    (hms : (ms.map NormMatch.localDate).Nodup)
    {s s' : SysState} (n0 : Int) (hinv : Inv ms s)
    (hres : s.resync = RPC.installed n0) (hsteps : Steps ms s s') :
    s'.resync = RPC.installed n0 ∧ Inv ms s' ∧
      ∃ t, s'.fired = s.fired ++ t ∧ ∀ j ∈ t, j ∈ planned n0 ms := by
  induction hsteps with
  | refl =>
    exact ⟨hres, hinv, [], by simp, fun j hj => absurd hj (List.not_mem_nil j)⟩
  | @tail t2 u2 hst htu ih =>
    obtain ⟨hres1, hinv1, t, hft, hpl⟩ := ih
    have hinv2 := inv_step hms hinv1 htu
    cases htu with
    | tick d hd =>
      exact ⟨hres1, hinv2, t, hft, hpl⟩
    | fire j hmem hdue =>
      refine ⟨hres1, hinv2, t ++ [j], ?_, ?_⟩
      · show t2.fired ++ [j] = s.fired ++ (t ++ [j])
        rw [hft, List.append_assoc]
      · intro k hk
        rcases List.mem_append.mp hk with hk | hk
        · exact hpl k hk
        · rw [List.mem_singleton] at hk
          subst hk
          have hsub := hinv1.2.2.2
          rw [hres1] at hsub
          simp only [phaseOk] at hsub
          exact hsub k hmem
    | removeAll h =>
      rw [hres1] at h
      cases h
    | plan h =>
      rw [hres1] at h
      cases h
    | addOk m0 j rest st2 h hadd =>
      rw [hres1] at h
      cases h
    | addFail m0 j rest e h hadd =>
      rw [hres1] at h
      cases h
    | finish m0 h =>
      rw [hres1] at h
      cases h

/-- C1: resync is atomic with respect to firing in the claimed sense.
For every interleaving of the daily resync with job execution, starting
from a duplicate-free, well-formed installed generation with nothing
fired yet (and a feed whose matches have distinct start instants): once
the new generation is installed, every job that fires afterwards belongs
to the installed generation — no job of the superseded schedule fires —
and no `(event, lead-time)` key ever fires twice across the resync
boundary, even when the same key reappears in the new generation. -/
theorem resync_atomic_across_firing
    (ms : List NormMatch) (oldGen : List Job) (n0 now0 : Int) (s s' : SysState)
    (hms : (ms.map NormMatch.localDate).Nodup)
    (hold1 : (oldGen.map pairKey).Nodup)
    (hold2 : ∀ j ∈ oldGen, wfJob j)
    (h1 : Steps ms ⟨n0, oldGen, [], RPC.idle⟩ s)
    (hinst : s.resync = RPC.installed now0)
    (h2 : Steps ms s s') :
    (∃ t, s'.fired = s.fired ++ t ∧ ∀ j ∈ t, j ∈ planned now0 ms) ∧
    (s'.fired.map pairKey).Nodup := by
  have hinv_s : Inv ms s := inv_steps hms (inv_init ms oldGen n0 hold1 hold2) h1
  obtain ⟨-, hinv', hext⟩ := steps_after_installed hms now0 hinv_s hinst h2
  exact ⟨hext, fired_keys_nodup hinv'.2.2.1⟩

/-- Witness for `resync_atomic_across_firing`: a concrete interleaving
that clears, plans one match, installs its three jobs, then lets the
clock pass the 7h-lead fire instant and fires that job. -/
theorem resync_atomic_across_firing_witness :
    (∃ t, ([mkJob dupMatch 7] : List Job) = [] ++ t ∧
      ∀ j ∈ t, j ∈ planned 0 [dupMatch]) ∧
    (([mkJob dupMatch 7] : List Job).map pairKey).Nodup := by
  have step1 : Step [dupMatch] (⟨0, [], [], RPC.idle⟩ : SysState)
      ⟨0, [], [], RPC.cleared⟩ := Step.removeAll _ rfl
  have step2 : Step [dupMatch] (⟨0, [], [], RPC.cleared⟩ : SysState)
      ⟨0, [], [], RPC.installing 0
        [mkJob dupMatch 7, mkJob dupMatch 5, mkJob dupMatch 2]⟩ :=
    Step.plan _ rfl
  have step3 : Step [dupMatch]
      (⟨0, [], [], RPC.installing 0
        [mkJob dupMatch 7, mkJob dupMatch 5, mkJob dupMatch 2]⟩ : SysState)
      ⟨0, [mkJob dupMatch 7], [], RPC.installing 0
        [mkJob dupMatch 5, mkJob dupMatch 2]⟩ :=
    Step.addOk _ 0 (mkJob dupMatch 7) [mkJob dupMatch 5, mkJob dupMatch 2]
      [mkJob dupMatch 7] rfl rfl
  have step4 : Step [dupMatch]
      (⟨0, [mkJob dupMatch 7], [], RPC.installing 0
        [mkJob dupMatch 5, mkJob dupMatch 2]⟩ : SysState)
      ⟨0, [mkJob dupMatch 7, mkJob dupMatch 5], [],
        RPC.installing 0 [mkJob dupMatch 2]⟩ :=
    Step.addOk _ 0 (mkJob dupMatch 5) [mkJob dupMatch 2]
      [mkJob dupMatch 7, mkJob dupMatch 5] rfl rfl
  have step5 : Step [dupMatch]
      (⟨0, [mkJob dupMatch 7, mkJob dupMatch 5], [],
        RPC.installing 0 [mkJob dupMatch 2]⟩ : SysState)
      ⟨0, [mkJob dupMatch 7, mkJob dupMatch 5, mkJob dupMatch 2], [],
        RPC.installing 0 []⟩ :=
    Step.addOk _ 0 (mkJob dupMatch 2) []
      [mkJob dupMatch 7, mkJob dupMatch 5, mkJob dupMatch 2] rfl rfl
  have step6 : Step [dupMatch]
      (⟨0, [mkJob dupMatch 7, mkJob dupMatch 5, mkJob dupMatch 2], [],
        RPC.installing 0 []⟩ : SysState)
      ⟨0, [mkJob dupMatch 7, mkJob dupMatch 5, mkJob dupMatch 2], [],
        RPC.installed 0⟩ :=
    Step.finish _ 0 rfl
  have step7 : Step [dupMatch]
      (⟨0, [mkJob dupMatch 7, mkJob dupMatch 5, mkJob dupMatch 2], [],
        RPC.installed 0⟩ : SysState)
      ⟨600, [mkJob dupMatch 7, mkJob dupMatch 5, mkJob dupMatch 2], [],
        RPC.installed 0⟩ :=
    Step.tick _ 600 (by decide)
  have step8 : Step [dupMatch]
      (⟨600, [mkJob dupMatch 7, mkJob dupMatch 5, mkJob dupMatch 2], [],
        RPC.installed 0⟩ : SysState)
      ⟨600, [mkJob dupMatch 5, mkJob dupMatch 2], [mkJob dupMatch 7],
        RPC.installed 0⟩ :=
    Step.fire _ (mkJob dupMatch 7) (by decide) (by decide)
  have H1 : Steps [dupMatch] ⟨0, [], [], RPC.idle⟩
      ⟨0, [mkJob dupMatch 7, mkJob dupMatch 5, mkJob dupMatch 2], [],
        RPC.installed 0⟩ :=
    Steps.tail (Steps.tail (Steps.tail (Steps.tail (Steps.tail
      (Steps.tail Steps.refl step1) step2) step3) step4) step5) step6
  have H2 : Steps [dupMatch]
      ⟨0, [mkJob dupMatch 7, mkJob dupMatch 5, mkJob dupMatch 2], [],
        RPC.installed 0⟩
      ⟨600, [mkJob dupMatch 5, mkJob dupMatch 2], [mkJob dupMatch 7],
        RPC.installed 0⟩ :=
    Steps.tail (Steps.tail Steps.refl step7) step8
  exact resync_atomic_across_firing [dupMatch] [] 0 0
    ⟨0, [mkJob dupMatch 7, mkJob dupMatch 5, mkJob dupMatch 2], [],
      RPC.installed 0⟩
    ⟨600, [mkJob dupMatch 5, mkJob dupMatch 2], [mkJob dupMatch 7],
      RPC.installed 0⟩
    (by decide) (by decide) (fun j hj => absurd hj (List.not_mem_nil j))
    H1 rfl H2

end FCBot
